import Mathlib

/-!
A verification development for the bluez-async translation layer: the
modalias parser, the characteristic flag parser, the identifier hierarchy,
the subscription-filter builder and the signal-to-event decoder.

Rust strings are embedded as `List Char`; Rust `HashMap`s are embedded as
association lists whose `insert` conses in front (so that `List.lookup`
returns the most recently inserted binding, matching `HashMap` overwrite
semantics); fallible Rust functions return `Except`/`Option`.
-/

namespace BluezAsync

/-- Rust `char::is_ascii_lowercase`: true exactly for `a`..`z`. -/
def isAsciiLowercase (c : Char) : Bool :=
  decide (97 ≤ c.toNat ∧ c.toNat ≤ 122)

/-- Rust `char::to_digit(16)`: decimal digits, `a`..`f` and `A`..`F`. -/
def hexDigit? (c : Char) : Option Nat :=
  if 48 ≤ c.toNat ∧ c.toNat ≤ 57 then some (c.toNat - 48)
  else if 97 ≤ c.toNat ∧ c.toNat ≤ 102 then some (c.toNat - 87)
  else if 65 ≤ c.toNat ∧ c.toNat ≤ 70 then some (c.toNat - 55)
  else none

/-- One digit step of `u16::from_str_radix(_, 16)`: checked multiply and add,
failing as soon as the accumulator would exceed `u16::MAX`. -/
def u16HexStep (acc : Option Nat) (c : Char) : Option Nat :=
  acc.bind fun n => (hexDigit? c).bind fun d =>
    if n * 16 + d < 65536 then some (n * 16 + d) else none

/-- Rust `u16::from_str_radix(s, 16)`: an optional leading `+` sign followed by
at least one hexadecimal digit, overflow above `u16::MAX` is an error. -/
def u16FromStrRadix16 (s : List Char) : Option Nat :=
  let digits := match s with
    | c :: rest => if c = '+' then rest else c :: rest
    | [] => []
  if digits.isEmpty then none
  else digits.foldl u16HexStep (some 0)

/-- `Modalias` from `modalias.rs`: three `u16` fields. -/
structure Modalias where
  vendor_id : Nat
  product_id : Nat
  device_id : Nat
deriving DecidableEq, Repr

/-- `RawModalias` from `modalias.rs`. The `HashMap<String, String>` of values
is embedded as an association list where insertion conses in front, so
`List.lookup` returns the most recent insertion (`HashMap` overwrite). -/
structure RawModalias where
  subtype : List Char
  values : List (List Char × List Char)
deriving DecidableEq, Repr

/-- Rust `str::split_once(sep)`: the parts before and after the first
occurrence of `sep`, or `none` when `sep` does not occur. -/
def splitOnce (sep : Char) : List Char → Option (List Char × List Char)
  | [] => none
  | c :: cs =>
    if c = sep then some ([], cs)
    else (splitOnce sep cs).map fun p => (c :: p.1, p.2)

/-- The key/value tokenizing loop of `RawModalias::from_str`. A key is a
maximal run of ASCII lowercase letters, its value the following run of
non-lowercase characters. The loop consumes at least one character per
iteration, so running it with fuel `rest.length` reproduces the Rust
`while` loop exactly (see `tokenizeLoop_fuel`). -/
def tokenizeLoop :
    Nat → List Char → List (List Char × List Char) → List (List Char × List Char)
  | _, [], values => values
  | 0, _ :: _, values => values
  | fuel + 1, c0 :: cs, values =>
    let rest := c0 :: cs
    let key := rest.takeWhile isAsciiLowercase
    match rest.dropWhile isAsciiLowercase with
    | [] => (rest, ([] : List Char)) :: values
    | c1 :: r1 =>
      let value := (c1 :: r1).takeWhile fun ch => !(isAsciiLowercase ch)
      match (c1 :: r1).dropWhile fun ch => !(isAsciiLowercase ch) with
      | [] => (key, c1 :: r1) :: values
      | c2 :: r2 => tokenizeLoop fuel (c2 :: r2) ((key, value) :: values)

/-- The key/value tokens of the tokenizing loop in textual (left-to-right)
order: the same scan as `tokenizeLoop`, emitting each token where the loop
inserts it. `tokenizeLoop` produces exactly this sequence with the most
recently scanned token in front (`tokenizeLoop_eq_specTokens`), which is
how the `HashMap` insert-overwrite ends up last-wins. -/
def specTokens : Nat → List Char → List (List Char × List Char)
  | _, [] => []
  | 0, _ :: _ => []
  | fuel + 1, c0 :: cs =>
    let rest := c0 :: cs
    let key := rest.takeWhile isAsciiLowercase
    match rest.dropWhile isAsciiLowercase with
    | [] => [(rest, ([] : List Char))]
    | c1 :: r1 =>
      let value := (c1 :: r1).takeWhile fun ch => !(isAsciiLowercase ch)
      match (c1 :: r1).dropWhile fun ch => !(isAsciiLowercase ch) with
      | [] => [(key, c1 :: r1)]
      | c2 :: r2 => (key, value) :: specTokens fuel (c2 :: r2)

/-- `RawModalias::from_str`: split at the first `:`, then tokenize the rest. -/
def RawModalias.from_str (s : List Char) : Except (List Char) RawModalias :=
  match splitOnce ':' s with
  | some (subtype, rest) => .ok { subtype, values := tokenizeLoop rest.length rest [] }
  | none => .error s

/-- `TryFrom<RawModalias> for Modalias`: require subtype `usb` and keys `v`,
`p`, `d` each bound to a valid `u16` hexadecimal value. -/
def Modalias.try_from (raw : RawModalias) : Option Modalias :=
  if raw.subtype ≠ "usb".toList then none
  else
    match raw.values.lookup "v".toList with
    | none => none
    | some v =>
      match u16FromStrRadix16 v with
      | none => none
      | some vendor_id =>
        match raw.values.lookup "p".toList with
        | none => none
        | some p =>
          match u16FromStrRadix16 p with
          | none => none
          | some product_id =>
            match raw.values.lookup "d".toList with
            | none => none
            | some d =>
              match u16FromStrRadix16 d with
              | none => none
              | some device_id => some { vendor_id, product_id, device_id }

/-- `FromStr for Modalias`: tokenize, then convert, reporting the original
string on either failure. -/
def Modalias.from_str (s : List Char) : Except (List Char) Modalias :=
  match RawModalias.from_str s with
  | .error e => .error e
  | .ok raw =>
    match Modalias.try_from raw with
    | some m => .ok m
    | none => .error s

/-- The uppercase hexadecimal digit character for `d < 16`. -/
def hexDigitUpper (d : Nat) : Char :=
  if d < 10 then Char.ofNat (48 + d) else Char.ofNat (55 + d)

/-- Uppercase hexadecimal digits of `n`, most significant first, empty for 0.
Structural fuel stands in for the division-based recursion; fuel `n + 1`
always suffices (`toHexCore_fuel`). -/
def toHexCore : Nat → Nat → List Char
  | 0, _ => []
  | fuel + 1, n =>
    if n = 0 then [] else toHexCore fuel (n / 16) ++ [hexDigitUpper (n % 16)]

/-- Rust `{:04X}` formatting of a `u16` field: uppercase hexadecimal digits,
zero-padded on the left to width 4. -/
def fmt04X (n : Nat) : List Char :=
  let core := toHexCore (n + 1) n
  List.replicate (4 - core.length) '0' ++ core

/-- `Display for Modalias`: `usb:v{:04X}p{:04X}d{:04X}`. -/
def Modalias.fmt (m : Modalias) : List Char :=
  "usb:v".toList ++ fmt04X m.vendor_id ++ ['p'] ++ fmt04X m.product_id
    ++ ['d'] ++ fmt04X m.device_id

/-- The sixteen uppercase hexadecimal digit characters. -/
def hexUpperChars : List Char :=
  ['0', '1', '2', '3', '4', '5', '6', '7', '8', '9', 'A', 'B', 'C', 'D', 'E', 'F']

/-! ### Characteristic flags (characteristic.rs) -/

/-- The flag-name table of `TryFrom<&[String]> for CharacteristicFlags`:
each of the 15 recognized capability names maps to its single bit. -/
def flagBit : String → Option Nat
  | "broadcast" => some 0x01
  | "read" => some 0x02
  | "write-without-response" => some 0x04
  | "write" => some 0x08
  | "notify" => some 0x10
  | "indicate" => some 0x20
  | "authenticated-signed-writes" => some 0x40
  | "extended-properties" => some 0x80
  | "reliable-write" => some 0x100
  | "writable-auxiliaries" => some 0x200
  | "encrypt-read" => some 0x400
  | "encrypt-write" => some 0x800
  | "encrypt-authenticated-read" => some 0x1000
  | "encrypt-authenticated-write" => some 0x2000
  | "authorize" => some 0x4000
  | _ => none

/-- The accumulation loop of `CharacteristicFlags::try_from`: insert the bit
of each recognized name, abort with the offending raw token otherwise
(`BluetoothError::FlagParseError`). -/
def flagsLoop : List String → Nat → Except String Nat
  | [], flags => .ok flags
  | s :: rest, flags =>
    match flagBit s with
    | some f => flagsLoop rest (flags ||| f)
    | none => .error s

/-- `TryFrom<&[String]> for CharacteristicFlags`, starting from the empty set. -/
def CharacteristicFlags.try_from (value : List String) : Except String Nat :=
  flagsLoop value 0

/-! ### Identifier hierarchy (characteristic.rs) -/

/-- Modelled from the spec: `ServiceId` (defined in the service module, which
is not part of the sources here) wraps a hierarchical object-path string,
with equality on the underlying path. -/
structure ServiceId where
  object_path : List Char
deriving DecidableEq, Repr

/-- `CharacteristicId` from `characteristic.rs`: wraps an object path. -/
structure CharacteristicId where
  object_path : List Char
deriving DecidableEq, Repr

/-- `ServiceId::new`. -/
def ServiceId.new (object_path : List Char) : ServiceId :=
  ⟨object_path⟩

/-- `CharacteristicId::new`. -/
def CharacteristicId.new (object_path : List Char) : CharacteristicId :=
  ⟨object_path⟩

/-- Rust `str::rfind(c)`: the index of the last occurrence of `c`. -/
def rfind (c : Char) : List Char → Option Nat
  | [] => none
  | x :: xs =>
    match rfind c xs with
    | some i => some (i + 1)
    | none => if x = c then some 0 else none

/-- `CharacteristicId::service`: truncate the object path at its last slash.
The `.expect` on a slash-free path is modelled by `Option`, `none` standing
for the panic. -/
def CharacteristicId.service (id : CharacteristicId) : Option ServiceId :=
  (rfind '/' id.object_path).map fun index => ServiceId.new (id.object_path.take index)

/-! ### Event decoder (events.rs) -/

/-- Modelled from the spec: `AdapterId` (defined in the adapter module, not
part of the sources here) wraps a hierarchical object-path string. -/
structure AdapterId where
  object_path : List Char
deriving DecidableEq, Repr

/-- Modelled from the spec: `DeviceId` (defined in the device module, not
part of the sources here) wraps a hierarchical object-path string. -/
structure DeviceId where
  object_path : List Char
deriving DecidableEq, Repr

/-- Modelled from the spec: a parsed UUID. The spec says UUID strings from
the daemon are parsed and invalid ones are impossible under the daemon's
contract, so the parsed value is modelled by the string itself. -/
structure Uuid where
  raw : String
deriving DecidableEq, Repr

/-- A dynamically typed D-Bus property value (`Variant<Box<dyn RefArg>>`),
restricted to the shapes the decoder inspects. -/
inductive DbusValue where
  | b (v : Bool)
  | i16 (v : Int)
  | u16 (v : Nat)
  | bytes (v : List Nat)
  | str (v : String)
  | strs (v : List String)
  | dictU16Bytes (v : List (Nat × List Nat))
  | dictStrBytes (v : List (String × List Nat))
deriving DecidableEq, Repr

/-- A D-Bus property bag (`PropMap`), embedded as an association list. -/
abbrev PropMap : Type := List (String × DbusValue)

/-- Typed property lookup, the `arg::prop_cast::<bool>` pattern of the
generated accessors (see `gattdescriptor1.rs`): `none` when the key is
absent or the value has the wrong type. -/
def propBool (m : PropMap) (k : String) : Option Bool :=
  (List.lookup k m).bind fun v =>
    match v with
    | .b x => some x
    | _ => none

/-- `arg::prop_cast::<i16>`. -/
def propI16 (m : PropMap) (k : String) : Option Int :=
  (List.lookup k m).bind fun v =>
    match v with
    | .i16 x => some x
    | _ => none

/-- `arg::prop_cast::<Vec<u8>>`. -/
def propBytes (m : PropMap) (k : String) : Option (List Nat) :=
  (List.lookup k m).bind fun v =>
    match v with
    | .bytes x => some x
    | _ => none

/-- `arg::prop_cast` for a company-id-keyed byte-array map. -/
def propDictU16 (m : PropMap) (k : String) : Option (List (Nat × List Nat)) :=
  (List.lookup k m).bind fun v =>
    match v with
    | .dictU16Bytes x => some x
    | _ => none

/-- `arg::prop_cast` for a string-keyed byte-array map. -/
def propDictStr (m : PropMap) (k : String) : Option (List (String × List Nat)) :=
  (List.lookup k m).bind fun v =>
    match v with
    | .dictStrBytes x => some x
    | _ => none

/-- `arg::prop_cast::<Vec<String>>`. -/
def propStrs (m : PropMap) (k : String) : Option (List String) :=
  (List.lookup k m).bind fun v =>
    match v with
    | .strs x => some x
    | _ => none

/-- Modelled from the generated accessor pattern (the generated device,
adapter and characteristic property files are not part of the sources
here): `OrgBluezAdapter1Properties::powered`. -/
def adapterPowered (m : PropMap) : Option Bool := propBool m "Powered"

/-- `OrgBluezAdapter1Properties::discovering`. -/
def adapterDiscovering (m : PropMap) : Option Bool := propBool m "Discovering"

/-- `OrgBluezDevice1Properties::connected`. -/
def deviceConnected (m : PropMap) : Option Bool := propBool m "Connected"

/-- `OrgBluezDevice1Properties::rssi`. -/
def deviceRssi (m : PropMap) : Option Int := propI16 m "RSSI"

/-- `OrgBluezDevice1Properties::manufacturer_data`. -/
def deviceManufacturerData (m : PropMap) : Option (List (Nat × List Nat)) :=
  propDictU16 m "ManufacturerData"

/-- `OrgBluezDevice1Properties::service_data`. -/
def deviceServiceData (m : PropMap) : Option (List (String × List Nat)) :=
  propDictStr m "ServiceData"

/-- `OrgBluezDevice1Properties::uuids`. -/
def deviceUuids (m : PropMap) : Option (List String) := propStrs m "UUIDs"

/-- `OrgBluezDevice1Properties::services_resolved`. -/
def deviceServicesResolved (m : PropMap) : Option Bool := propBool m "ServicesResolved"

/-- `OrgBluezGattCharacteristic1Properties::value`. -/
def characteristicValue (m : PropMap) : Option (List Nat) := propBytes m "Value"

/-- Modelled from the spec: `convert_manufacturer_data` (device module, not
part of the sources here) converts a company-id-keyed byte-array map from
its variant-typed form; the entries themselves are kept. -/
def convert_manufacturer_data (m : List (Nat × List Nat)) : List (Nat × List Nat) := m

/-- Modelled from the spec: `convert_service_data` (device module, not part
of the sources here) parses each UUID-string key of a byte-array map. -/
def convert_service_data (m : List (String × List Nat)) : List (Uuid × List Nat) :=
  m.map fun p => (⟨p.1⟩, p.2)

/-- Modelled from the spec: `convert_services` (device module, not part of
the sources here) parses each UUID string of the list. -/
def convert_services (ss : List String) : List Uuid :=
  ss.map fun s => ⟨s⟩

/-- `AdapterEvent` from `events.rs`. -/
inductive AdapterEvent where
  | powered (powered : Bool)
  | discovering (discovering : Bool)
deriving DecidableEq, Repr

/-- `DeviceEvent` from `events.rs`. -/
inductive DeviceEvent where
  | discovered
  | connected (connected : Bool)
  | rssi (rssi : Int)
  | manufacturerData (manufacturer_data : List (Nat × List Nat))
  | serviceData (service_data : List (Uuid × List Nat))
  | services (services : List Uuid)
  | servicesResolved
deriving DecidableEq, Repr

/-- `CharacteristicEvent` from `events.rs`. -/
inductive CharacteristicEvent where
  | value (value : List Nat)
deriving DecidableEq, Repr

/-- `BluetoothEvent` from `events.rs`. -/
inductive BluetoothEvent where
  | adapter (id : AdapterId) (event : AdapterEvent)
  | device (id : DeviceId) (event : DeviceEvent)
  | characteristic (id : CharacteristicId) (event : CharacteristicEvent)
deriving DecidableEq, Repr

/-- The D-Bus `PropertiesChanged` signal arguments. -/
structure PropertiesPropertiesChanged where
  interface_name : String
  changed_properties : PropMap
  invalidated_properties : List String

/-- The D-Bus ObjectManager `InterfacesAdded` signal arguments. -/
structure ObjectManagerInterfacesAdded where
  object : List Char
  interfaces : List (String × PropMap)

/-- The body of a D-Bus message, as far as the decoder can read it: the
arguments of one of the two recognized signals, or anything else. -/
inductive MessageBody where
  | propsChanged (args : PropertiesPropertiesChanged)
  | ifacesAdded (args : ObjectManagerInterfacesAdded)
  | other

/-- The D-Bus message types. -/
inductive MessageType where
  | signal
  | methodCall
  | methodReturn
  | errorReply
deriving DecidableEq, Repr

/-- A raw D-Bus message, as far as the decoder inspects it. The object path
header is optional, as in the `dbus` crate's `Message::path`. -/
structure Message where
  msgType : MessageType
  path : Option (List Char)
  interface : Option String
  member : Option String
  body : MessageBody

/-- Interface name constant from `bluez-generated`. -/
def ORG_BLUEZ_ADAPTER1_NAME : String := "org.bluez.Adapter1"

/-- Interface name constant from `bluez-generated`. -/
def ORG_BLUEZ_DEVICE1_NAME : String := "org.bluez.Device1"

/-- Interface name constant from `bluez-generated`. -/
def ORG_BLUEZ_GATT_CHARACTERISTIC1_NAME : String := "org.bluez.GattCharacteristic1"

/-- Modelled from the spec: `SignalArgs::from_message` for the
`PropertiesChanged` signal (dbus crate, an external collaborator): the
message must be a signal on the `org.freedesktop.DBus.Properties` interface
with member `PropertiesChanged`, and its body must read as the signal's
arguments; the object path header is not required. -/
def propertiesChangedFromMessage (m : Message) : Option PropertiesPropertiesChanged :=
  if m.msgType = .signal ∧ m.interface = some "org.freedesktop.DBus.Properties"
      ∧ m.member = some "PropertiesChanged" then
    match m.body with
    | .propsChanged args => some args
    | _ => none
  else none

/-- Modelled from the spec: `SignalArgs::from_message` for the ObjectManager
`InterfacesAdded` signal. -/
def interfacesAddedFromMessage (m : Message) : Option ObjectManagerInterfacesAdded :=
  if m.msgType = .signal ∧ m.interface = some "org.freedesktop.DBus.ObjectManager"
      ∧ m.member = some "InterfacesAdded" then
    match m.body with
    | .ifacesAdded args => some args
    | _ => none
  else none

/-- The `if let Some(x) = property { events.push(f x) }` pattern of the
decoder: a singleton event list when the property is present. -/
def pushIf {α : Type} (o : Option α) (f : α → BluetoothEvent) : List BluetoothEvent :=
  match o with
  | some x => [f x]
  | none => []

/-- `BluetoothEvent::properties_changed_to_events`: dispatch on the
interface name and append at most one event per recognized changed
property, in the source's fixed key-check order. -/
def BluetoothEvent.properties_changed_to_events (object_path : List Char)
    (properties_changed : PropertiesPropertiesChanged) : List BluetoothEvent :=
  let changed_properties := properties_changed.changed_properties
  if properties_changed.interface_name = ORG_BLUEZ_ADAPTER1_NAME then
    let id : AdapterId := ⟨object_path⟩
    pushIf (adapterPowered changed_properties) (fun powered => .adapter id (.powered powered))
      ++ pushIf (adapterDiscovering changed_properties)
        (fun discovering => .adapter id (.discovering discovering))
  else if properties_changed.interface_name = ORG_BLUEZ_DEVICE1_NAME then
    let id : DeviceId := ⟨object_path⟩
    pushIf (deviceConnected changed_properties)
        (fun connected => .device id (.connected connected))
      ++ pushIf (deviceRssi changed_properties) (fun rssi => .device id (.rssi rssi))
      ++ pushIf (deviceManufacturerData changed_properties)
        (fun md => .device id (.manufacturerData (convert_manufacturer_data md)))
      ++ pushIf (deviceServiceData changed_properties)
        (fun sd => .device id (.serviceData (convert_service_data sd)))
      ++ pushIf (deviceUuids changed_properties)
        (fun services => .device id (.services (convert_services services)))
      ++ (if deviceServicesResolved changed_properties = some true
          then [.device id .servicesResolved] else [])
  else if properties_changed.interface_name = ORG_BLUEZ_GATT_CHARACTERISTIC1_NAME then
    let id : CharacteristicId := ⟨object_path⟩
    pushIf (characteristicValue changed_properties)
      (fun value => .characteristic id (.value value))
  else []

/-- `BluetoothEvent::interfaces_added_to_events`: one `Discovered` event
when the added object's interface map contains the device interface
(`OrgBluezDevice1Properties::from_interfaces` is `interfaces.get(NAME)`). -/
def BluetoothEvent.interfaces_added_to_events
    (interfaces_added : ObjectManagerInterfacesAdded) : List BluetoothEvent :=
  let object_path := interfaces_added.object
  match List.lookup ORG_BLUEZ_DEVICE1_NAME interfaces_added.interfaces with
  | some _ => [.device ⟨object_path⟩ .discovered]
  | none => []

/-- `BluetoothEvent::message_to_events`. The `message.path().unwrap()` in
the `PropertiesChanged` branch is modelled by `Option`: `none` stands for
the panic on a message without an object path header. -/
def BluetoothEvent.message_to_events (message : Message) : Option (List BluetoothEvent) :=
  match propertiesChangedFromMessage message with
  | some properties_changed =>
    message.path.map fun object_path =>
      BluetoothEvent.properties_changed_to_events object_path properties_changed
  | none =>
    match interfacesAddedFromMessage message with
    | some interfaces_added =>
      some (BluetoothEvent.interfaces_added_to_events interfaces_added)
    | none => some []

/-! ### Subscription filters (events.rs `match_rules`) -/

/-- A D-Bus match rule, as far as `BluetoothEvent::match_rules` configures
it. The sender (bus name) field is not modelled: the dbus crate only checks
the sender during matching when `strict_sender` is set, which this code
never sets. -/
structure MatchRule where
  msgType : Option MessageType
  path : Option (List Char)
  path_is_namespace : Bool
  interface : Option String
  member : Option String

/-- Whether `msg` starts with `rule` character for character. -/
def listStartsWith : List Char → List Char → Bool
  | [], _ => true
  | _ :: _, [] => false
  | r :: rs, m :: ms => r == m && listStartsWith rs ms

/-- Modelled from the spec: D-Bus `path_namespace` matching — the message
path equals the rule path, or lies strictly below it in the path tree (the
root path `/` matches everything). -/
def pathNamespaceMatch (rulePath msgPath : List Char) : Bool :=
  rulePath == msgPath
    || rulePath == ['/']
    || (listStartsWith rulePath msgPath && msgPath.get? rulePath.length == some '/')

/-- Modelled from the spec: `MatchRule::matches` of the dbus crate — every
field set on the rule must agree with the message, the path field under the
namespace semantics when `path_is_namespace` is set. -/
def MatchRule.matches (rule : MatchRule) (msg : Message) : Bool :=
  (match rule.msgType with
    | some t => decide (msg.msgType = t)
    | none => true)
  && (match rule.path with
    | some rp =>
      match msg.path with
      | some mp => if rule.path_is_namespace then pathNamespaceMatch rp mp else rp == mp
      | none => false
    | none => true)
  && (match rule.interface with
    | some ri => decide (msg.interface = some ri)
    | none => true)
  && (match rule.member with
    | some rm => decide (msg.member = some rm)
    | none => true)

/-- Modelled from the spec: the rule built by
`ObjectManagerInterfacesAdded::match_rule(Some(bus_name), None)` — a signal
rule keyed on the ObjectManager interface and `InterfacesAdded` member. -/
def interfacesAddedMatchRule : MatchRule :=
  { msgType := some .signal, path := none, path_is_namespace := false,
    interface := some "org.freedesktop.DBus.ObjectManager",
    member := some "InterfacesAdded" }

/-- Modelled from the spec: the rule built by
`PropertiesPropertiesChanged::match_rule(Some(bus_name), object_path)`. -/
def propertiesChangedMatchRule (object_path : Option (List Char)) : MatchRule :=
  { msgType := some .signal, path := object_path, path_is_namespace := false,
    interface := some "org.freedesktop.DBus.Properties",
    member := some "PropertiesChanged" }

/-- `BluetoothEvent::match_rules`: the InterfacesAdded rule when requested,
then the PropertiesChanged rule with `path_is_namespace` set. -/
def BluetoothEvent.match_rules (object : Option (List Char)) (interfaces_added : Bool) :
    List MatchRule :=
  let match_rules := if interfaces_added then [interfacesAddedMatchRule] else []
  let match_rule :=
    { propertiesChangedMatchRule object with path_is_namespace := true }
  match_rules ++ [match_rule]

/-! ### Test message constructors (events.rs test module) -/

/-- Modelled from the spec: `SignalArgs::to_emit_message` for
`PropertiesChanged` — a signal at the given path carrying the arguments. -/
def PropertiesPropertiesChanged.to_emit_message
    (pc : PropertiesPropertiesChanged) (path : List Char) : Message :=
  { msgType := .signal, path := some path,
    interface := some "org.freedesktop.DBus.Properties",
    member := some "PropertiesChanged", body := .propsChanged pc }

/-- Modelled from the spec: `SignalArgs::to_emit_message` for
`InterfacesAdded`. -/
def ObjectManagerInterfacesAdded.to_emit_message
    (ia : ObjectManagerInterfacesAdded) (path : List Char) : Message :=
  { msgType := .signal, path := some path,
    interface := some "org.freedesktop.DBus.ObjectManager",
    member := some "InterfacesAdded", body := .ifacesAdded ia }

/-- `new_device_message` from the events.rs tests: an `InterfacesAdded`
signal, emitted at the root path, adding the device interface with an empty
property bag at `device_path`. -/
def new_device_message (device_path : List Char) : Message :=
  ObjectManagerInterfacesAdded.to_emit_message
    { object := device_path, interfaces := [("org.bluez.Device1", [])] } ['/']

/-- `adapter_powered_message` from the events.rs tests. -/
def adapter_powered_message (adapter_path : List Char) (powered : Bool) : Message :=
  PropertiesPropertiesChanged.to_emit_message
    { interface_name := "org.bluez.Adapter1",
      changed_properties := [("Powered", .b powered)],
      invalidated_properties := [] } adapter_path

/-- `device_rssi_message` from the events.rs tests. -/
def device_rssi_message (device_path : List Char) (rssi : Int) : Message :=
  PropertiesPropertiesChanged.to_emit_message
    { interface_name := "org.bluez.Device1",
      changed_properties := [("RSSI", .i16 rssi)],
      invalidated_properties := [] } device_path

/-- `characteristic_value_message` from the events.rs tests. -/
def characteristic_value_message (characteristic_path : List Char) (value : List Nat) :
    Message :=
  PropertiesPropertiesChanged.to_emit_message
    { interface_name := "org.bluez.GattCharacteristic1",
      changed_properties := [("Value", .bytes value)],
      invalidated_properties := [] } characteristic_path

/-! ### Spec-side descriptions for the decoder claims -/

/-- The spec's fixed key-check order for the device interface. -/
def deviceKeyOrder : List String :=
  ["Connected", "RSSI", "ManufacturerData", "ServiceData", "UUIDs", "ServicesResolved"]

/-- The spec's per-key event table for the device interface: the event a key
contributes when it is present in the changed-property bag, with
`ServicesResolved` contributing only when its value is `true`. -/
def specDeviceEventForKey (id : DeviceId) (m : PropMap) : String → Option BluetoothEvent :=
  fun k =>
    if k = "Connected" then
      (deviceConnected m).map fun c => .device id (.connected c)
    else if k = "RSSI" then
      (deviceRssi m).map fun r => .device id (.rssi r)
    else if k = "ManufacturerData" then
      (deviceManufacturerData m).map fun md =>
        .device id (.manufacturerData (convert_manufacturer_data md))
    else if k = "ServiceData" then
      (deviceServiceData m).map fun sd =>
        .device id (.serviceData (convert_service_data sd))
    else if k = "UUIDs" then
      (deviceUuids m).map fun us => .device id (.services (convert_services us))
    else if k = "ServicesResolved" then
      if deviceServicesResolved m = some true then some (.device id .servicesResolved) else none
    else none

/-- The device-interface key a device event answers to, for counting events
per key. -/
def deviceEventKey : BluetoothEvent → Option String
  | .device _ e =>
    match e with
    | .connected _ => some "Connected"
    | .rssi _ => some "RSSI"
    | .manufacturerData _ => some "ManufacturerData"
    | .serviceData _ => some "ServiceData"
    | .services _ => some "UUIDs"
    | .servicesResolved => some "ServicesResolved"
    | .discovered => none
  | _ => none

/-! ### List helper lemmas -/

theorem takeWhile_append_pos (p : Char → Bool) (l₁ l₂ : List Char)
    (h : ∀ c ∈ l₁, p c = true) :
    (l₁ ++ l₂).takeWhile p = l₁ ++ l₂.takeWhile p := by
  induction l₁ with
  | nil => simp
  | cons a t ih =>
    have ha := h a (List.mem_cons_self a t)
    simp only [List.cons_append, List.takeWhile_cons, ha, if_true]
    rw [ih fun c hc => h c (List.mem_cons_of_mem a hc)]

theorem dropWhile_append_pos (p : Char → Bool) (l₁ l₂ : List Char)
    (h : ∀ c ∈ l₁, p c = true) :
    (l₁ ++ l₂).dropWhile p = l₂.dropWhile p := by
  induction l₁ with
  | nil => simp
  | cons a t ih =>
    have ha := h a (List.mem_cons_self a t)
    simp only [List.cons_append, List.dropWhile_cons, ha, if_true]
    exact ih fun c hc => h c (List.mem_cons_of_mem a hc)

/-! ### Tokenizer lemmas -/

/-- One iteration of the tokenizing loop: a single lowercase key character,
a nonempty non-lowercase value, and a following lowercase character. -/
theorem tokenizeLoop_step (f : Nat) (k : Char) (hv : List Char) (r : Char)
    (rest' : List Char) (vs : List (List Char × List Char))
    (hk : isAsciiLowercase k = true) (hhv : hv ≠ [])
    (hall : ∀ c ∈ hv, isAsciiLowercase c = false)
    (hr : isAsciiLowercase r = true) :
    tokenizeLoop (f + 1) (k :: (hv ++ r :: rest')) vs
      = tokenizeLoop f (r :: rest') (([k], hv) :: vs) := by
  obtain ⟨h0, hv', rfl⟩ : ∃ h0 hv', hv = h0 :: hv' := by
    cases hv with
    | nil => exact absurd rfl hhv
    | cons a t => exact ⟨a, t, rfl⟩
  have hh0 : isAsciiLowercase h0 = false := hall h0 (List.mem_cons_self h0 hv')
  have hKtake : List.takeWhile isAsciiLowercase (k :: h0 :: (hv' ++ r :: rest')) = [k] := by
    simp [List.takeWhile_cons, hk, hh0]
  have hKdrop : List.dropWhile isAsciiLowercase (k :: h0 :: (hv' ++ r :: rest'))
      = h0 :: (hv' ++ r :: rest') := by
    simp [List.dropWhile_cons, hk, hh0]
  have hvaltake :
      List.takeWhile (fun ch => !(isAsciiLowercase ch)) (h0 :: (hv' ++ r :: rest'))
        = h0 :: hv' := by
    have := takeWhile_append_pos (fun ch => !(isAsciiLowercase ch))
      (h0 :: hv') (r :: rest') (fun c hc => by simp [hall c hc])
    simpa [List.takeWhile_cons, hr] using this
  have hvaldrop :
      List.dropWhile (fun ch => !(isAsciiLowercase ch)) (h0 :: (hv' ++ r :: rest'))
        = r :: rest' := by
    have := dropWhile_append_pos (fun ch => !(isAsciiLowercase ch))
      (h0 :: hv') (r :: rest') (fun c hc => by simp [hall c hc])
    simpa [List.dropWhile_cons, hr] using this
  show tokenizeLoop (f + 1) (k :: h0 :: (hv' ++ r :: rest')) vs = _
  simp only [tokenizeLoop, hKtake, hKdrop, hvaltake, hvaldrop]

/-- The final iteration of the tokenizing loop: a single lowercase key
character whose nonempty non-lowercase value runs to the end of the input. -/
theorem tokenizeLoop_last (f : Nat) (k : Char) (hv : List Char)
    (vs : List (List Char × List Char))
    (hk : isAsciiLowercase k = true) (hhv : hv ≠ [])
    (hall : ∀ c ∈ hv, isAsciiLowercase c = false) :
    tokenizeLoop (f + 1) (k :: hv) vs = ([k], hv) :: vs := by
  obtain ⟨h0, hv', rfl⟩ : ∃ h0 hv', hv = h0 :: hv' := by
    cases hv with
    | nil => exact absurd rfl hhv
    | cons a t => exact ⟨a, t, rfl⟩
  have hh0 : isAsciiLowercase h0 = false := hall h0 (List.mem_cons_self h0 hv')
  have hKtake : List.takeWhile isAsciiLowercase (k :: h0 :: hv') = [k] := by
    simp [List.takeWhile_cons, hk, hh0]
  have hKdrop : List.dropWhile isAsciiLowercase (k :: h0 :: hv') = h0 :: hv' := by
    simp [List.dropWhile_cons, hk, hh0]
  have hvaltake : List.takeWhile (fun ch => !(isAsciiLowercase ch)) (h0 :: hv')
      = h0 :: hv' := by
    have := takeWhile_append_pos (fun ch => !(isAsciiLowercase ch))
      (h0 :: hv') [] (fun c hc => by simp [hall c hc])
    simpa using this
  have hvaldrop : List.dropWhile (fun ch => !(isAsciiLowercase ch)) (h0 :: hv') = [] := by
    have := dropWhile_append_pos (fun ch => !(isAsciiLowercase ch))
      (h0 :: hv') [] (fun c hc => by simp [hall c hc])
    simpa using this
  simp only [tokenizeLoop, hKtake, hKdrop, hvaltake, hvaldrop]

/-- The tokenizing loop emits exactly the textual token sequence, most
recently scanned token in front of the accumulator. -/
theorem tokenizeLoop_eq_specTokens :
    ∀ (fuel : Nat) (rest : List Char) (vs : List (List Char × List Char)),
      tokenizeLoop fuel rest vs = (specTokens fuel rest).reverse ++ vs := by
  intro fuel
  induction fuel with
  | zero =>
    intro rest vs
    cases rest <;> simp [tokenizeLoop, specTokens]
  | succ fuel ih =>
    intro rest vs
    cases rest with
    | nil => simp [tokenizeLoop, specTokens]
    | cons c0 cs =>
      cases h1 : (c0 :: cs).dropWhile isAsciiLowercase with
      | nil => simp [tokenizeLoop, specTokens, h1]
      | cons c1 r1 =>
        cases h2 : (c1 :: r1).dropWhile fun ch => !(isAsciiLowercase ch) with
        | nil => simp [tokenizeLoop, specTokens, h1, h2]
        | cons c2 r2 => simp [tokenizeLoop, specTokens, h1, h2, ih]

/-- `List.lookup` distributes over append, preferring the first list. -/
theorem lookup_append_match (k : List Char) :
    ∀ l1 l2 : List (List Char × List Char),
      List.lookup k (l1 ++ l2)
        = match List.lookup k l1 with
          | some v => some v
          | none => List.lookup k l2 := by
  intro l1 l2
  induction l1 with
  | nil => simp
  | cons a l1 ih =>
    obtain ⟨a1, a2⟩ := a
    cases h : (k == a1) with
    | true => simp [List.lookup, h]
    | false => simp [List.lookup, h, ih]

/-- Looking a key up in a reversed association list returns the value paired
with the key's last occurrence in the original (textual) order. -/
theorem lookup_reverse (k : List Char) :
    ∀ toks : List (List Char × List Char),
      List.lookup k toks.reverse
        = Option.map Prod.snd ((toks.filter fun p => p.1 == k).getLast?) := by
  intro toks
  induction toks with
  | nil => simp
  | cons t ts ih =>
    obtain ⟨t1, t2⟩ := t
    rw [List.reverse_cons, lookup_append_match k ts.reverse [(t1, t2)], List.filter_cons]
    cases hl : List.lookup k ts.reverse with
    | some v =>
      rw [hl] at ih
      cases hf : (ts.filter fun p => p.1 == k) with
      | nil =>
        rw [hf] at ih
        simp at ih
      | cons q qs =>
        rw [hf] at ih
        by_cases hm : (t1 == k) = true
        · simp only [hm, if_true]
          rw [List.getLast?_cons_cons]
          exact ih
        · simp only [Bool.not_eq_true] at hm
          simp only [hm, Bool.false_eq_true, if_false]
          exact ih
    | none =>
      rw [hl] at ih
      have hf : (ts.filter fun p => p.1 == k) = [] := by
        cases hf' : (ts.filter fun p => p.1 == k) with
        | nil => rfl
        | cons q qs =>
          rw [hf'] at ih
          obtain ⟨q1, q2⟩ := q
          cases qs with
          | nil => simp at ih
          | cons q' qs' =>
            rw [List.getLast?_cons_cons] at ih
            have : ((q' :: qs').getLast?).isSome := by
              rw [List.getLast?_isSome]
              simp
            obtain ⟨w, hw⟩ := Option.isSome_iff_exists.1 this
            rw [hw] at ih
            simp at ih
      rw [hf]
      by_cases hm : t1 = k
      · subst hm
        simp [List.lookup]
      · have h1 : (t1 == k) = false := beq_eq_false_iff_ne.2 hm
        have h2 : (k == t1) = false := beq_eq_false_iff_ne.2 fun hh => hm hh.symm
        simp [List.lookup, h1, h2]

/-- `splitOnce` fails exactly when the separator does not occur. -/
theorem splitOnce_eq_none_iff (sep : Char) (s : List Char) :
    splitOnce sep s = none ↔ sep ∉ s := by
  induction s with
  | nil => simp [splitOnce]
  | cons c cs ih =>
    by_cases hc : c = sep
    · subst hc
      simp [splitOnce]
    · simp only [splitOnce, if_neg hc, List.mem_cons]
      rw [Option.map_eq_none', ih]
      constructor
      · intro h hmem
        rcases hmem with h1 | h2
        · exact hc h1.symm
        · exact h h2
      · intro h hm
        exact h (Or.inr hm)

/-- Splitting a string of the shape `usb:<rest>` at the first colon. -/
theorem splitOnce_usb (rest : List Char) :
    splitOnce ':' ('u' :: 's' :: 'b' :: ':' :: rest) = some (['u', 's', 'b'], rest) := rfl

/-! ### Hexadecimal formatting lemmas -/

theorem hexDigitUpper_mem : ∀ d < 16, hexDigitUpper d ∈ hexUpperChars := by decide

theorem hexUpper_not_lower : ∀ c ∈ hexUpperChars, isAsciiLowercase c = false := by decide

theorem hexUpper_ne_plus : ∀ c ∈ hexUpperChars, ¬(c = '+') := by decide

theorem hexDigit_of_upper : ∀ d < 16, hexDigit? (hexDigitUpper d) = some d := by decide

theorem hexUpper_digit : ∀ c ∈ hexUpperChars,
    ∃ d, d < 16 ∧ hexDigit? c = some d ∧ hexDigitUpper d = c := by decide

theorem toHexCore_zero (f : Nat) : toHexCore f 0 = [] := by
  cases f <;> simp [toHexCore]

theorem toHexCore_succ (f n : Nat) (h : n ≠ 0) :
    toHexCore (f + 1) n = toHexCore f (n / 16) ++ [hexDigitUpper (n % 16)] := by
  simp [toHexCore, h]

/-- The fuel argument of `toHexCore` is irrelevant once it covers the number
of digits, so the fuel-based definition agrees with the Rust division loop. -/
theorem toHexCore_fuel : ∀ f g n, n < 16 ^ f → n < 16 ^ g →
    toHexCore f n = toHexCore g n := by
  intro f
  induction f with
  | zero =>
    intro g n hf _
    simp only [pow_zero, Nat.lt_one_iff] at hf
    subst hf
    rw [toHexCore_zero, toHexCore_zero]
  | succ f ih =>
    intro g n hf hg
    cases g with
    | zero =>
      simp only [pow_zero, Nat.lt_one_iff] at hg
      subst hg
      rw [toHexCore_zero, toHexCore_zero]
    | succ g =>
      by_cases hn : n = 0
      · subst hn
        rw [toHexCore_zero, toHexCore_zero]
      · rw [toHexCore_succ _ _ hn, toHexCore_succ _ _ hn,
          ih g (n / 16) (by omega) (by omega)]

theorem toHexCore_chars : ∀ f n, ∀ c ∈ toHexCore f n, c ∈ hexUpperChars := by
  intro f
  induction f with
  | zero => intro n c hc; simp [toHexCore] at hc
  | succ f ih =>
    intro n c hc
    by_cases hn : n = 0
    · subst hn; rw [toHexCore_zero] at hc; simp at hc
    · rw [toHexCore_succ _ _ hn] at hc
      rcases List.mem_append.1 hc with h | h
      · exact ih _ _ h
      · simp only [List.mem_singleton] at h
        subst h
        exact hexDigitUpper_mem _ (Nat.mod_lt _ (by omega))

/-- Closed form of `{:04X}` formatting below `u16::MAX`: exactly the four
uppercase hexadecimal digits, most significant first. -/
theorem fmt04X_eq (n : Nat) (h : n < 65536) :
    fmt04X n = [hexDigitUpper (n / 4096), hexDigitUpper (n / 256 % 16),
      hexDigitUpper (n / 16 % 16), hexDigitUpper (n % 16)] := by
  have hbig : n < 16 ^ (n + 1) := by
    calc n < 16 ^ n := Nat.lt_pow_self (by norm_num) n
    _ ≤ 16 ^ (n + 1) := Nat.pow_le_pow_right (by norm_num) (Nat.le_succ n)
  have h5 : n < 16 ^ 5 := by
    have : (65536 : Nat) ≤ 16 ^ 5 := by norm_num
    omega
  have hfuel : toHexCore (n + 1) n = toHexCore 5 n := toHexCore_fuel _ _ n hbig h5
  have hU0 : hexDigitUpper 0 = '0' := rfl
  simp only [fmt04X, hfuel]
  by_cases h0 : n = 0
  · subst h0
    decide
  rcases Nat.lt_or_ge n 16 with h16 | h16
  · rw [toHexCore_succ 4 n h0, show n / 16 = 0 from by omega, toHexCore_zero]
    rw [show n / 4096 = 0 from by omega, show n / 256 % 16 = 0 from by omega]
    rfl
  rcases Nat.lt_or_ge n 256 with h256 | h256
  · rw [toHexCore_succ 4 n h0, toHexCore_succ 3 (n / 16) (by omega),
      show n / 16 / 16 = 0 from by omega, toHexCore_zero]
    rw [show n / 4096 = 0 from by omega, show n / 256 % 16 = 0 from by omega, hU0]
    rfl
  rcases Nat.lt_or_ge n 4096 with h4096 | h4096
  · rw [toHexCore_succ 4 n h0, toHexCore_succ 3 (n / 16) (by omega),
      toHexCore_succ 2 (n / 16 / 16) (by omega),
      show n / 16 / 16 / 16 = 0 from by omega, toHexCore_zero]
    rw [show n / 16 / 16 % 16 = n / 256 % 16 from by omega,
      show n / 4096 = 0 from by omega, hU0]
    rfl
  · rw [toHexCore_succ 4 n h0, toHexCore_succ 3 (n / 16) (by omega),
      toHexCore_succ 2 (n / 16 / 16) (by omega),
      toHexCore_succ 1 (n / 16 / 16 / 16) (by omega),
      show n / 16 / 16 / 16 / 16 = 0 from by omega, toHexCore_zero]
    rw [show n / 16 / 16 % 16 = n / 256 % 16 from by omega,
      show n / 16 / 16 / 16 % 16 = n / 4096 from by omega]
    rfl

theorem u16HexStep_eq (x : Nat) (e : Char) (v : Nat) (he : hexDigit? e = some v)
    (hb : x * 16 + v < 65536) : u16HexStep (some x) e = some (x * 16 + v) := by
  simp [u16HexStep, he, hb]

/-- Parsing a four-digit uppercase hexadecimal string. -/
theorem parse_four_upper (a b c d : Nat) (ha : a < 16) (hb : b < 16) (hc : c < 16)
    (hd : d < 16) :
    u16FromStrRadix16 [hexDigitUpper a, hexDigitUpper b, hexDigitUpper c, hexDigitUpper d]
      = some (((a * 16 + b) * 16 + c) * 16 + d) := by
  have hne : ¬(hexDigitUpper a = '+') := hexUpper_ne_plus _ (hexDigitUpper_mem a ha)
  simp only [u16FromStrRadix16, if_neg hne, List.isEmpty_cons, Bool.false_eq_true, if_false]
  rw [List.foldl_cons, u16HexStep_eq 0 _ a (hexDigit_of_upper a ha) (by omega)]
  rw [List.foldl_cons, u16HexStep_eq (0 * 16 + a) _ b (hexDigit_of_upper b hb) (by omega)]
  rw [List.foldl_cons,
    u16HexStep_eq ((0 * 16 + a) * 16 + b) _ c (hexDigit_of_upper c hc) (by omega)]
  rw [List.foldl_cons,
    u16HexStep_eq (((0 * 16 + a) * 16 + b) * 16 + c) _ d (hexDigit_of_upper d hd) (by omega)]
  rw [List.foldl_nil]
  congr 1
  omega

/-- `u16::from_str_radix` inverts `{:04X}` formatting. -/
theorem u16_parse_fmt04X (n : Nat) (h : n < 65536) :
    u16FromStrRadix16 (fmt04X n) = some n := by
  rw [fmt04X_eq n h,
    parse_four_upper (n / 4096) (n / 256 % 16) (n / 16 % 16) (n % 16)
      (by omega) (by omega) (by omega) (by omega)]
  congr 1
  omega

theorem fmt04X_length (n : Nat) (h : n < 65536) : (fmt04X n).length = 4 := by
  rw [fmt04X_eq n h]
  rfl

theorem fmt04X_chars (n : Nat) (h : n < 65536) : ∀ c ∈ fmt04X n, c ∈ hexUpperChars := by
  rw [fmt04X_eq n h]
  intro c hm
  simp only [List.mem_cons, List.not_mem_nil, or_false] at hm
  rcases hm with rfl | rfl | rfl | rfl
  · exact hexDigitUpper_mem _ (by omega)
  · exact hexDigitUpper_mem _ (by omega)
  · exact hexDigitUpper_mem _ (by omega)
  · exact hexDigitUpper_mem _ (by omega)

/-- Parsing a modalias string of the canonical shape
`usb:v<h1>p<h2>d<h3>` with four-character uppercase-hexadecimal fields. -/
theorem from_str_usb_parse (h1 h2 h3 : List Char) (n1 n2 n3 : Nat)
    (l1 : h1.length = 4) (l2 : h2.length = 4) (l3 : h3.length = 4)
    (m1 : ∀ c ∈ h1, c ∈ hexUpperChars) (m2 : ∀ c ∈ h2, c ∈ hexUpperChars)
    (m3 : ∀ c ∈ h3, c ∈ hexUpperChars)
    (p1 : u16FromStrRadix16 h1 = some n1) (p2 : u16FromStrRadix16 h2 = some n2)
    (p3 : u16FromStrRadix16 h3 = some n3) :
    Modalias.from_str ('u' :: 's' :: 'b' :: ':' :: 'v' :: (h1 ++ 'p' :: (h2 ++ 'd' :: h3)))
      = .ok ⟨n1, n2, n3⟩ := by
  have hne1 : h1 ≠ [] := by intro he; rw [he] at l1; simp at l1
  have hne2 : h2 ≠ [] := by intro he; rw [he] at l2; simp at l2
  have hne3 : h3 ≠ [] := by intro he; rw [he] at l3; simp at l3
  have hall1 : ∀ c ∈ h1, isAsciiLowercase c = false := fun c hc => hexUpper_not_lower c (m1 c hc)
  have hall2 : ∀ c ∈ h2, isAsciiLowercase c = false := fun c hc => hexUpper_not_lower c (m2 c hc)
  have hall3 : ∀ c ∈ h3, isAsciiLowercase c = false := fun c hc => hexUpper_not_lower c (m3 c hc)
  have hlen : ('v' :: (h1 ++ 'p' :: (h2 ++ 'd' :: h3))).length = 15 := by
    simp [l1, l2, l3]
  have hvals : tokenizeLoop ('v' :: (h1 ++ 'p' :: (h2 ++ 'd' :: h3))).length
      ('v' :: (h1 ++ 'p' :: (h2 ++ 'd' :: h3))) []
      = [(['d'], h3), (['p'], h2), (['v'], h1)] := by
    rw [hlen, show (15 : Nat) = 14 + 1 from rfl,
      tokenizeLoop_step 14 'v' h1 'p' (h2 ++ 'd' :: h3) [] (by decide) hne1 hall1 (by decide),
      show (14 : Nat) = 13 + 1 from rfl,
      tokenizeLoop_step 13 'p' h2 'd' h3 _ (by decide) hne2 hall2 (by decide),
      show (13 : Nat) = 12 + 1 from rfl,
      tokenizeLoop_last 12 'd' h3 _ (by decide) hne3 hall3]
  have lkv : List.lookup "v".toList [(['d'], h3), (['p'], h2), (['v'], h1)] = some h1 := rfl
  have lkp : List.lookup "p".toList [(['d'], h3), (['p'], h2), (['v'], h1)] = some h2 := rfl
  have lkd : List.lookup "d".toList [(['d'], h3), (['p'], h2), (['v'], h1)] = some h3 := rfl
  simp only [Modalias.from_str, RawModalias.from_str, splitOnce_usb, hvals,
    Modalias.try_from]
  rw [if_neg (by decide)]
  simp only [lkv, lkp, lkd, p1, p2, p3]

/-- The canonical cons-and-append shape of a formatted modalias string. -/
theorem fmt_shape (m : Modalias) :
    Modalias.fmt m = 'u' :: 's' :: 'b' :: ':' :: 'v'
      :: (fmt04X m.vendor_id ++ 'p' :: (fmt04X m.product_id ++ 'd' :: fmt04X m.device_id)) := by
  rw [Modalias.fmt, show ("usb:v".toList : List Char) = ['u', 's', 'b', ':', 'v'] from rfl]
  simp [List.append_assoc]

/-- A four-character uppercase-hexadecimal string parses to a `u16` value
that formats back to the very same string. -/
theorem hex4_parse (h : List Char) (hlen : h.length = 4)
    (hmem : ∀ c ∈ h, c ∈ hexUpperChars) :
    ∃ n, n < 65536 ∧ u16FromStrRadix16 h = some n ∧ fmt04X n = h := by
  cases h with
  | nil => simp at hlen
  | cons c1 t1 =>
  cases t1 with
  | nil => simp at hlen
  | cons c2 t2 =>
  cases t2 with
  | nil => simp at hlen
  | cons c3 t3 =>
  cases t3 with
  | nil => simp at hlen
  | cons c4 t4 =>
  cases t4 with
  | cons c5 t5 => simp at hlen
  | nil =>
  obtain ⟨d1, hd1, he1, hu1⟩ := hexUpper_digit c1 (hmem c1 (by simp))
  obtain ⟨d2, hd2, he2, hu2⟩ := hexUpper_digit c2 (hmem c2 (by simp))
  obtain ⟨d3, hd3, he3, hu3⟩ := hexUpper_digit c3 (hmem c3 (by simp))
  obtain ⟨d4, hd4, he4, hu4⟩ := hexUpper_digit c4 (hmem c4 (by simp))
  refine ⟨((d1 * 16 + d2) * 16 + d3) * 16 + d4, by omega, ?_, ?_⟩
  · rw [← hu1, ← hu2, ← hu3, ← hu4]
    exact parse_four_upper d1 d2 d3 d4 hd1 hd2 hd3 hd4
  · rw [fmt04X_eq _ (by omega),
      show (((d1 * 16 + d2) * 16 + d3) * 16 + d4) / 4096 = d1 from by omega,
      show (((d1 * 16 + d2) * 16 + d3) * 16 + d4) / 256 % 16 = d2 from by omega,
      show (((d1 * 16 + d2) * 16 + d3) * 16 + d4) / 16 % 16 = d3 from by omega,
      show (((d1 * 16 + d2) * 16 + d3) * 16 + d4) % 16 = d4 from by omega,
      hu1, hu2, hu3, hu4]

/-- `Modalias::try_from` fails as soon as one of the keys `v`, `p`, `d` is
missing or its value does not parse as a `u16` hexadecimal number. -/
theorem try_from_eq_none (raw : RawModalias)
    (h : (raw.values.lookup "v".toList).bind u16FromStrRadix16 = none
       ∨ (raw.values.lookup "p".toList).bind u16FromStrRadix16 = none
       ∨ (raw.values.lookup "d".toList).bind u16FromStrRadix16 = none) :
    Modalias.try_from raw = none := by
  unfold Modalias.try_from
  by_cases hsub : raw.subtype ≠ "usb".toList
  · rw [if_pos hsub]
  · rw [if_neg hsub]
    rcases h with h | h | h
    · cases hlv : raw.values.lookup "v".toList with
      | none => simp [hlv]
      | some v =>
        rw [hlv] at h
        simp only [Option.some_bind] at h
        simp [hlv, h]
    · cases hlv : raw.values.lookup "v".toList with
      | none => simp [hlv]
      | some v =>
        cases hpv : u16FromStrRadix16 v with
        | none => simp [hlv, hpv]
        | some nv =>
          cases hlp : raw.values.lookup "p".toList with
          | none => simp [hlv, hpv, hlp]
          | some p =>
            rw [hlp] at h
            simp only [Option.some_bind] at h
            simp [hlv, hpv, hlp, h]
    · cases hlv : raw.values.lookup "v".toList with
      | none => simp [hlv]
      | some v =>
        cases hpv : u16FromStrRadix16 v with
        | none => simp [hlv, hpv]
        | some nv =>
          cases hlp : raw.values.lookup "p".toList with
          | none => simp [hlv, hpv, hlp]
          | some p =>
            cases hpp : u16FromStrRadix16 p with
            | none => simp [hlv, hpv, hlp, hpp]
            | some np =>
              cases hld : raw.values.lookup "d".toList with
              | none => simp [hlv, hpv, hlp, hpp, hld]
              | some d =>
                rw [hld] at h
                simp only [Option.some_bind] at h
                simp [hlv, hpv, hlp, hpp, hld, h]

/-! ### Claims about the modalias parser -/

/-- C9: value-level modalias round-trip. For every `Modalias` value, that is,
every triple of 16-bit `vendor_id`, `product_id`, `device_id`, formatting it
to a string and parsing that string back succeeds and returns a value equal
to the original. -/
theorem c9_value_roundtrip (v p d : Nat) (hv : v < 65536) (hp : p < 65536)
    (hd : d < 65536) :
    Modalias.from_str (Modalias.fmt ⟨v, p, d⟩) = .ok ⟨v, p, d⟩ := by
  rw [fmt_shape ⟨v, p, d⟩]
  exact from_str_usb_parse (fmt04X v) (fmt04X p) (fmt04X d) v p d
    (fmt04X_length v hv) (fmt04X_length p hp) (fmt04X_length d hd)
    (fmt04X_chars v hv) (fmt04X_chars p hp) (fmt04X_chars d hd)
    (u16_parse_fmt04X v hv) (u16_parse_fmt04X p hp) (u16_parse_fmt04X d hd)

/-- Witness for C9 at the concrete value `(0x1234, 0x5678, 0x90AB)`. -/
theorem c9_value_roundtrip_witness :
    Modalias.from_str (Modalias.fmt ⟨0x1234, 0x5678, 0x90AB⟩) = .ok ⟨0x1234, 0x5678, 0x90AB⟩ :=
  c9_value_roundtrip 0x1234 0x5678 0x90AB (by decide) (by decide) (by decide)

/-- C4 counterexample: the subtype comparison is case-sensitive, so the
claimed case-insensitive round-trip fails: `USB:v0000p0000d0000` does not
parse at all, and `usb:v1234p5678d90ab` (lowercase hexadecimal digits)
parses with `device_id = 0x90` — the letters `ab` are taken for a new key —
so formatting does not reproduce the canonical form of the input. -/
theorem c4_counterexample :
    Modalias.from_str "USB:v0000p0000d0000".toList
        = .error "USB:v0000p0000d0000".toList
      ∧ Modalias.from_str "usb:v1234p5678d90ab".toList = .ok ⟨0x1234, 0x5678, 0x90⟩
      ∧ Modalias.fmt ⟨0x1234, 0x5678, 0x90⟩ ≠ "usb:v1234p5678d90AB".toList := by
  refine ⟨rfl, rfl, ?_⟩
  intro h
  have : Modalias.fmt ⟨0x1234, 0x5678, 0x90⟩ = "usb:v1234p5678d0090".toList := by decide
  rw [this] at h
  exact absurd h (by decide)

/-- C4 (amended): for every input string of the canonical shape
`usb:v<h1>p<h2>d<h3>` — lowercase subtype `usb` and three four-digit
hexadecimal fields written with decimal digits and uppercase letters —
parsing succeeds and formatting the parsed value reproduces the input
string exactly. -/
theorem c4_canonical_roundtrip (h1 h2 h3 : List Char)
    (l1 : h1.length = 4) (l2 : h2.length = 4) (l3 : h3.length = 4)
    (m1 : ∀ c ∈ h1, c ∈ hexUpperChars) (m2 : ∀ c ∈ h2, c ∈ hexUpperChars)
    (m3 : ∀ c ∈ h3, c ∈ hexUpperChars) :
    ∃ m : Modalias,
      Modalias.from_str ('u' :: 's' :: 'b' :: ':' :: 'v' :: (h1 ++ 'p' :: (h2 ++ 'd' :: h3)))
          = .ok m
        ∧ Modalias.fmt m = 'u' :: 's' :: 'b' :: ':' :: 'v' :: (h1 ++ 'p' :: (h2 ++ 'd' :: h3)) := by
  obtain ⟨n1, b1, p1, f1⟩ := hex4_parse h1 l1 m1
  obtain ⟨n2, b2, p2, f2⟩ := hex4_parse h2 l2 m2
  obtain ⟨n3, b3, p3, f3⟩ := hex4_parse h3 l3 m3
  refine ⟨⟨n1, n2, n3⟩,
    from_str_usb_parse h1 h2 h3 n1 n2 n3 l1 l2 l3 m1 m2 m3 p1 p2 p3, ?_⟩
  rw [fmt_shape ⟨n1, n2, n3⟩]
  show 'u' :: 's' :: 'b' :: ':' :: 'v' :: (fmt04X n1 ++ 'p' :: (fmt04X n2 ++ 'd' :: fmt04X n3)) = _
  rw [f1, f2, f3]

/-- Witness for the amended C4 at the concrete input `usb:v1234p5678d90AB`. -/
theorem c4_canonical_roundtrip_witness :
    ∃ m : Modalias,
      Modalias.from_str ('u' :: 's' :: 'b' :: ':' :: 'v'
          :: ("1234".toList ++ 'p' :: ("5678".toList ++ 'd' :: "90AB".toList)))
          = .ok m
        ∧ Modalias.fmt m = 'u' :: 's' :: 'b' :: ':' :: 'v'
            :: ("1234".toList ++ 'p' :: ("5678".toList ++ 'd' :: "90AB".toList)) :=
  c4_canonical_roundtrip "1234".toList "5678".toList "90AB".toList
    (by decide) (by decide) (by decide) (by decide) (by decide) (by decide)

/-- C8: modalias parsing fails for every string lacking a `:` separator; for
every string with a separator it fails whenever the subtype is not `usb`,
whenever one of the keys `v`, `p`, `d` is absent after tokenization, or
whenever one of those keys' values is not a valid 16-bit hexadecimal number
(the lookup-then-parse chain for that key yields nothing); in particular
`usb:`, `usb:v1234p5678` and `blah:v0000p0000d0000` all fail. -/
theorem c8_parse_failures :
    (∀ s : List Char, ':' ∉ s → Modalias.from_str s = .error s)
      ∧ (∀ s subty rest, splitOnce ':' s = some (subty, rest) → subty ≠ "usb".toList →
          Modalias.from_str s = .error s)
      ∧ (∀ s subty rest, splitOnce ':' s = some (subty, rest) →
          (((tokenizeLoop rest.length rest []).lookup "v".toList).bind u16FromStrRadix16 = none
            ∨ ((tokenizeLoop rest.length rest []).lookup "p".toList).bind u16FromStrRadix16 = none
            ∨ ((tokenizeLoop rest.length rest []).lookup "d".toList).bind u16FromStrRadix16
                = none) →
          Modalias.from_str s = .error s)
      ∧ (Modalias.from_str "usb:".toList = .error "usb:".toList
          ∧ Modalias.from_str "usb:v1234p5678".toList = .error "usb:v1234p5678".toList
          ∧ Modalias.from_str "blah:v0000p0000d0000".toList
              = .error "blah:v0000p0000d0000".toList) := by
  refine ⟨?_, ?_, ?_, rfl, rfl, rfl⟩
  · intro s hs
    simp only [Modalias.from_str, RawModalias.from_str, (splitOnce_eq_none_iff ':' s).2 hs]
  · intro s subty rest hsp hsub
    simp only [Modalias.from_str, RawModalias.from_str, hsp, Modalias.try_from]
    rw [if_pos hsub]
  · intro s subty rest hsp h
    simp only [Modalias.from_str, RawModalias.from_str, hsp]
    rw [try_from_eq_none _ h]

/-- Witness for C8: each failure condition discharged at a concrete input. -/
theorem c8_parse_failures_witness :
    Modalias.from_str "nocolon".toList = .error "nocolon".toList
      ∧ Modalias.from_str "blah:v0000".toList = .error "blah:v0000".toList
      ∧ Modalias.from_str "usb:v12".toList = .error "usb:v12".toList := by
  refine ⟨?_, ?_, ?_⟩
  · exact c8_parse_failures.1 "nocolon".toList (by decide)
  · exact c8_parse_failures.2.1 "blah:v0000".toList "blah".toList "v0000".toList
      (by decide) (by decide)
  · exact c8_parse_failures.2.2.1 "usb:v12".toList "usb".toList "v12".toList
      (by decide) (by decide)

/-- C10: the modalias tokenizer's key/value map is last-wins, universally:
for every input string with a `:` separator and every key, the resulting
map binds the key to the value following its last occurrence in the token
sequence (in textual order; `none` when the key never occurs) — in
particular when the same key occurs more than once the last value is
retained. On `usb:v1111p0000d0000v2222` the key `v` occurs twice and
parsing succeeds with `vendor_id = 0x2222`. -/
theorem c10_last_key_wins :
    (∀ (fuel : Nat) (rest : List Char) (vs : List (List Char × List Char)),
        tokenizeLoop fuel rest vs = (specTokens fuel rest).reverse ++ vs)
      ∧ (∀ s subty rest, splitOnce ':' s = some (subty, rest) →
          ∀ k : List Char, ∃ raw,
            RawModalias.from_str s = .ok raw
              ∧ List.lookup k raw.values
                  = Option.map Prod.snd
                      (((specTokens rest.length rest).filter
                          fun p => p.1 == k).getLast?))
      ∧ Modalias.from_str "usb:v1111p0000d0000v2222".toList = .ok ⟨0x2222, 0x0000, 0x0000⟩
      ∧ specTokens "v1111p0000d0000v2222".toList.length "v1111p0000d0000v2222".toList
          = [("v".toList, "1111".toList), ("p".toList, "0000".toList),
             ("d".toList, "0000".toList), ("v".toList, "2222".toList)]
      ∧ List.lookup "v".toList
          (tokenizeLoop "v1111p0000d0000v2222".toList.length
            "v1111p0000d0000v2222".toList [])
        = some "2222".toList := by
  refine ⟨tokenizeLoop_eq_specTokens, ?_, rfl, rfl, rfl⟩
  intro s subty rest hsp k
  refine ⟨⟨subty, tokenizeLoop rest.length rest []⟩, ?_, ?_⟩
  · simp only [RawModalias.from_str, hsp]
  · show List.lookup k (tokenizeLoop rest.length rest []) = _
    rw [tokenizeLoop_eq_specTokens rest.length rest [], List.append_nil]
    exact lookup_reverse k (specTokens rest.length rest)

/-- Witness for C10 at the concrete input `usb:v1111p0000d0000v2222` and
the duplicated key `v`. -/
theorem c10_last_key_wins_witness :
    ∃ raw, RawModalias.from_str "usb:v1111p0000d0000v2222".toList = .ok raw
      ∧ List.lookup "v".toList raw.values
          = Option.map Prod.snd
              (((specTokens "v1111p0000d0000v2222".toList.length
                  "v1111p0000d0000v2222".toList).filter
                  fun p => p.1 == "v".toList).getLast?) :=
  c10_last_key_wins.2.1 "usb:v1111p0000d0000v2222".toList "usb".toList
    "v1111p0000d0000v2222".toList rfl "v".toList

/-! ### Flag-parsing lemmas -/

theorem flagsLoop_ok : ∀ (value : List String) (acc : Nat),
    (∀ s ∈ value, (flagBit s).isSome) →
    flagsLoop value acc = .ok (value.foldl (fun a s => a ||| (flagBit s).getD 0) acc) := by
  intro value
  induction value with
  | nil => intro acc _; rfl
  | cons x rest ih =>
    intro acc h
    obtain ⟨f, hf⟩ := Option.isSome_iff_exists.1 (h x (List.mem_cons_self x rest))
    simp only [flagsLoop, hf, List.foldl_cons, Option.getD_some]
    exact ih (acc ||| f) fun s hs => h s (List.mem_cons_of_mem x hs)

theorem flagsLoop_err : ∀ (value : List String) (acc : Nat) (s : String),
    value.find? (fun t => (flagBit t).isNone) = some s →
    flagsLoop value acc = .error s := by
  intro value
  induction value with
  | nil => intro acc s h; simp [List.find?] at h
  | cons x rest ih =>
    intro acc s h
    cases hx : flagBit x with
    | none =>
      rw [List.find?_cons_of_pos _ (by simp [hx])] at h
      obtain rfl : x = s := by injection h
      simp [flagsLoop, hx]
    | some f =>
      rw [List.find?_cons_of_neg _ (by simp [hx])] at h
      simp only [flagsLoop, hx]
      exact ih _ s h

/-! ### Identifier lemmas -/

theorem rfind_eq_none_iff (c : Char) : ∀ l : List Char, rfind c l = none ↔ c ∉ l := by
  intro l
  induction l with
  | nil => simp [rfind]
  | cons x xs ih =>
    simp only [rfind, List.mem_cons]
    cases h : rfind c xs with
    | some i =>
      have hmem : c ∈ xs := by
        by_contra hc
        rw [← ih] at hc
        simp [h] at hc
      simp [hmem]
    | none =>
      have hmem : c ∉ xs := ih.1 h
      by_cases hx : x = c
      · simp [hx]
      · have hcx : ¬(c = x) := fun hh => hx hh.symm
        simp [if_neg hx, hmem, hcx]

theorem rfind_append (pp seg : List Char) (c : Char) (h : c ∉ seg) :
    rfind c (pp ++ c :: seg) = some pp.length := by
  induction pp with
  | nil => simp [rfind, (rfind_eq_none_iff c seg).2 h]
  | cons x pp' ih => simp [rfind, ih]

theorem rfind_spec (c : Char) : ∀ (l : List Char) (i : Nat), rfind c l = some i →
    i < l.length ∧ l.get? i = some c ∧ ∀ j, i < j → l.get? j ≠ some c := by
  intro l
  induction l with
  | nil => intro i h; simp [rfind] at h
  | cons x xs ih =>
    intro i h
    simp only [rfind] at h
    cases hx : rfind c xs with
    | some i' =>
      rw [hx] at h
      obtain rfl : i' + 1 = i := by injection h
      obtain ⟨hb, hg, hlast⟩ := ih i' hx
      refine ⟨by simp only [List.length_cons]; omega, by simpa using hg, ?_⟩
      intro j hj
      cases j with
      | zero => omega
      | succ j' =>
        simp only [List.get?_cons_succ]
        exact hlast j' (by omega)
    | none =>
      rw [hx] at h
      by_cases hxc : x = c
      · rw [if_pos hxc] at h
        obtain rfl : 0 = i := by injection h
        refine ⟨by simp, by simp [hxc], ?_⟩
        intro j hj
        cases j with
        | zero => omega
        | succ j' =>
          simp only [List.get?_cons_succ]
          intro hq
          exact (rfind_eq_none_iff c xs).1 hx (List.get?_mem hq)
      · rw [if_neg hxc] at h
        cases h

theorem rfind_decompose (c : Char) (l : List Char) (i : Nat) (h : rfind c l = some i) :
    l = l.take i ++ c :: l.drop (i + 1) ∧ c ∉ l.drop (i + 1) := by
  obtain ⟨hb, hg, hlast⟩ := rfind_spec c l i h
  constructor
  · conv_lhs => rw [← List.take_append_drop i l]
    congr 1
    rw [List.drop_eq_getElem_cons hb]
    have hc : l[i] = c := by
      have h2 := List.getElem?_eq_getElem hb
      rw [← List.get?_eq_getElem?, hg] at h2
      injection h2 with h3
      exact h3.symm
    rw [hc]
  · intro hmem
    obtain ⟨k, hk⟩ := List.get?_of_mem hmem
    rw [List.get?_drop] at hk
    exact hlast (i + 1 + k) (by omega) hk

/-! ### Claims about flags and identifiers -/

/-- C5: for every list of capability-name strings, if every string is one of
the 15 recognized flag names, parsing succeeds and returns exactly the union
of the single bits corresponding to each name; if some string is
unrecognized, parsing fails with an error carrying the first offending raw
token (and by the `Except` type, no partial flag set is returned). -/
theorem c5_flag_parsing :
    (∀ value : List String, (∀ s ∈ value, (flagBit s).isSome) →
        CharacteristicFlags.try_from value
          = .ok (value.foldl (fun acc s => acc ||| (flagBit s).getD 0) 0))
      ∧ (∀ value : List String, ∀ s, value.find? (fun t => (flagBit t).isNone) = some s →
          CharacteristicFlags.try_from value = .error s)
      ∧ (∀ value : List String, (∃ s ∈ value, flagBit s = none) →
          ∃ s, s ∈ value ∧ flagBit s = none ∧ CharacteristicFlags.try_from value = .error s) := by
  refine ⟨fun value h => flagsLoop_ok value 0 h,
    fun value s h => flagsLoop_err value 0 s h, ?_⟩
  intro value hex
  have hsome : (value.find? fun t => (flagBit t).isNone).isSome := by
    rw [List.find?_isSome]
    obtain ⟨s, hs, hn⟩ := hex
    exact ⟨s, hs, by simp [hn]⟩
  obtain ⟨s, hs⟩ := Option.isSome_iff_exists.1 hsome
  refine ⟨s, List.mem_of_find?_eq_some hs, ?_, flagsLoop_err value 0 s hs⟩
  have := List.find?_some hs
  simpa using this

/-- Witness for C5 at the spec's concrete examples: `["read",
"encrypt-write"]` parses to the union of the READ and ENCRYPT_WRITE bits,
and `["read", "bogus"]` fails carrying `bogus`. -/
theorem c5_flag_parsing_witness :
    CharacteristicFlags.try_from ["read", "encrypt-write"] = .ok 0x802
      ∧ CharacteristicFlags.try_from ["read", "bogus"] = .error "bogus" :=
  ⟨c5_flag_parsing.1 ["read", "encrypt-write"] (by decide),
    c5_flag_parsing.2.1 ["read", "bogus"] "bogus" (by decide)⟩

/-- C6: for every characteristic path with at least one slash, the
parent-derivation operation returns the service id whose path is the
characteristic path truncated at its last slash; appending `'/' :: segment`
to a parent path and removing the trailing segment are mutually inverse. -/
theorem c6_parent_derivation :
    (∀ pp seg : List Char, '/' ∉ seg →
        (CharacteristicId.new (pp ++ '/' :: seg)).service = some (ServiceId.new pp))
      ∧ (∀ P : List Char, '/' ∈ P →
          ∃ i, rfind '/' P = some i
            ∧ (CharacteristicId.new P).service = some (ServiceId.new (P.take i))
            ∧ P = P.take i ++ '/' :: P.drop (i + 1)
            ∧ '/' ∉ P.drop (i + 1)) := by
  constructor
  · intro pp seg h
    simp only [CharacteristicId.service, CharacteristicId.new,
      rfind_append pp seg '/' h, Option.map_some']
    rw [List.take_left]
  · intro P hP
    cases hr : rfind '/' P with
    | none => exact absurd hP ((rfind_eq_none_iff '/' P).1 hr)
    | some i =>
      obtain ⟨hdec, hnot⟩ := rfind_decompose '/' P i hr
      exact ⟨i, rfl,
        by simp [CharacteristicId.service, CharacteristicId.new, hr], hdec, hnot⟩

/-- Witness for C6 at the repository's own test path
`/org/bluez/hci0/dev_11_22_33_44_55_66/service0022/char0033`. -/
theorem c6_parent_derivation_witness :
    (CharacteristicId.new ("/org/bluez/hci0/dev_11_22_33_44_55_66/service0022".toList
        ++ '/' :: "char0033".toList)).service
      = some (ServiceId.new "/org/bluez/hci0/dev_11_22_33_44_55_66/service0022".toList) :=
  c6_parent_derivation.1 "/org/bluez/hci0/dev_11_22_33_44_55_66/service0022".toList
    "char0033".toList (by decide)

/-! ### Decoder lemmas -/

theorem pushIf_toList {α : Type} (o : Option α) (f : α → BluetoothEvent) :
    pushIf o f = (o.map f).toList := by
  cases o <;> rfl

theorem filterMap_cons_toList {α β : Type} (f : α → Option β) (a : α) (l : List α) :
    List.filterMap f (a :: l) = (f a).toList ++ List.filterMap f l := by
  cases h : f a <;> simp [List.filterMap_cons, h]

theorem filterMap_count_le (f : String → Option BluetoothEvent) (k : String) :
    ∀ keys : List String,
      (∀ k' e, f k' = some e → deviceEventKey e = some k') →
      ((List.filterMap f keys).filter fun e => deviceEventKey e == some k).length
        ≤ keys.count k := by
  intro keys
  induction keys with
  | nil => intro _; simp
  | cons a keys ih =>
    intro hf
    have ih' := ih hf
    rw [filterMap_cons_toList, List.count_cons]
    cases ha : f a with
    | none =>
      simp only [Option.toList_none, List.nil_append]
      exact le_trans ih' (by split <;> omega)
    | some e =>
      have hk := hf a e ha
      simp only [Option.toList_some, List.singleton_append, List.filter_cons]
      by_cases hak : a = k
      · subst hak
        have hcond : (deviceEventKey e == some a) = true := by simp [hk]
        rw [hcond]
        simp only [if_true, List.length_cons, beq_self_eq_true]
        omega
      · have hcond : (deviceEventKey e == some k) = false := by
          rw [hk, beq_eq_false_iff_ne]
          exact fun hcontra => hak (Option.some.inj hcontra)
        rw [hcond]
        simp only [Bool.false_eq_true, if_false]
        exact le_trans ih' (by split <;> omega)

/-! ### Claims about the event decoder and the subscription filters -/

/-- C1: for every `PropertiesChanged` message on the device interface, the
decoder emits at most one event per recognized key present in the
changed-property bag, the events appear in exactly the fixed key-check
order `Connected, RSSI, ManufacturerData, ServiceData, UUIDs,
ServicesResolved` regardless of the bag's own entry order (the output
depends only on the lookup function of the bag), and a `ServicesResolved`
event is emitted exactly when that property is present with value true. -/
theorem c1_device_event_order (p : List Char) (m : PropMap) (inv : List String) :
    BluetoothEvent.properties_changed_to_events p ⟨ORG_BLUEZ_DEVICE1_NAME, m, inv⟩
        = List.filterMap (specDeviceEventForKey ⟨p⟩ m) deviceKeyOrder
      ∧ (∀ m2 : PropMap, (∀ k, List.lookup k m2 = List.lookup k m) →
          BluetoothEvent.properties_changed_to_events p ⟨ORG_BLUEZ_DEVICE1_NAME, m2, inv⟩
            = BluetoothEvent.properties_changed_to_events p ⟨ORG_BLUEZ_DEVICE1_NAME, m, inv⟩)
      ∧ (BluetoothEvent.device ⟨p⟩ .servicesResolved
            ∈ BluetoothEvent.properties_changed_to_events p ⟨ORG_BLUEZ_DEVICE1_NAME, m, inv⟩
          ↔ deviceServicesResolved m = some true)
      ∧ (∀ k : String,
          ((BluetoothEvent.properties_changed_to_events p
              ⟨ORG_BLUEZ_DEVICE1_NAME, m, inv⟩).filter
            fun e => deviceEventKey e == some k).length ≤ 1) := by
  have hchar : BluetoothEvent.properties_changed_to_events p ⟨ORG_BLUEZ_DEVICE1_NAME, m, inv⟩
      = List.filterMap (specDeviceEventForKey ⟨p⟩ m) deviceKeyOrder := by
    simp only [BluetoothEvent.properties_changed_to_events, deviceKeyOrder,
      filterMap_cons_toList, List.filterMap_nil, List.append_nil, specDeviceEventForKey,
      pushIf_toList]
    norm_num [ORG_BLUEZ_DEVICE1_NAME, ORG_BLUEZ_ADAPTER1_NAME]
    by_cases hres : deviceServicesResolved m = some true <;>
      simp [hres, List.append_assoc]
  refine ⟨hchar, ?_, ?_, ?_⟩
  · intro m2 hm
    have a1 : deviceConnected m2 = deviceConnected m := by
      simp [deviceConnected, propBool, hm "Connected"]
    have a2 : deviceRssi m2 = deviceRssi m := by
      simp [deviceRssi, propI16, hm "RSSI"]
    have a3 : deviceManufacturerData m2 = deviceManufacturerData m := by
      simp [deviceManufacturerData, propDictU16, hm "ManufacturerData"]
    have a4 : deviceServiceData m2 = deviceServiceData m := by
      simp [deviceServiceData, propDictStr, hm "ServiceData"]
    have a5 : deviceUuids m2 = deviceUuids m := by
      simp [deviceUuids, propStrs, hm "UUIDs"]
    have a6 : deviceServicesResolved m2 = deviceServicesResolved m := by
      simp [deviceServicesResolved, propBool, hm "ServicesResolved"]
    simp only [BluetoothEvent.properties_changed_to_events, a1, a2, a3, a4, a5, a6,
      if_neg (show ¬(ORG_BLUEZ_DEVICE1_NAME = ORG_BLUEZ_ADAPTER1_NAME) from by decide),
      if_pos (show ORG_BLUEZ_DEVICE1_NAME = ORG_BLUEZ_DEVICE1_NAME from rfl), if_true]
  · rw [hchar]
    constructor
    · intro hmem
      obtain ⟨k, hk, hfk⟩ := List.mem_filterMap.1 hmem
      simp only [deviceKeyOrder, List.mem_cons, List.not_mem_nil, or_false] at hk
      rcases hk with rfl | rfl | rfl | rfl | rfl | rfl
      · simp [specDeviceEventForKey, Option.map_eq_some'] at hfk
      · simp [specDeviceEventForKey, Option.map_eq_some'] at hfk
      · simp [specDeviceEventForKey, Option.map_eq_some'] at hfk
      · simp [specDeviceEventForKey, Option.map_eq_some'] at hfk
      · simp [specDeviceEventForKey, Option.map_eq_some'] at hfk
      · by_cases hres : deviceServicesResolved m = some true
        · exact hres
        · simp [specDeviceEventForKey, hres] at hfk
    · intro hres
      exact List.mem_filterMap.2
        ⟨"ServicesResolved", by simp [deviceKeyOrder],
          by simp [specDeviceEventForKey, hres]⟩
  · intro k
    rw [hchar]
    have hf : ∀ k' e, specDeviceEventForKey ⟨p⟩ m k' = some e → deviceEventKey e = some k' := by
      intro k' e h
      simp only [specDeviceEventForKey] at h
      split_ifs at h with h1 h2 h3 h4 h5 h6 h7
      · obtain ⟨c, _, rfl⟩ := Option.map_eq_some'.1 h
        subst h1
        rfl
      · obtain ⟨c, _, rfl⟩ := Option.map_eq_some'.1 h
        subst h2
        rfl
      · obtain ⟨c, _, rfl⟩ := Option.map_eq_some'.1 h
        subst h3
        rfl
      · obtain ⟨c, _, rfl⟩ := Option.map_eq_some'.1 h
        subst h4
        rfl
      · obtain ⟨c, _, rfl⟩ := Option.map_eq_some'.1 h
        subst h5
        rfl
      · obtain rfl : BluetoothEvent.device ⟨p⟩ .servicesResolved = e := by injection h
        subst h6
        rfl
    calc ((List.filterMap (specDeviceEventForKey ⟨p⟩ m) deviceKeyOrder).filter
          fun e => deviceEventKey e == some k).length
        ≤ deviceKeyOrder.count k := filterMap_count_le _ k deviceKeyOrder hf
      _ ≤ 1 := List.nodup_iff_count_le_one.1 (by decide) k

/-- Witness for C1 at the spec's concrete RSSI test vector, also
instantiating the bag-order-independence conjunct with the identical bag. -/
theorem c1_device_event_order_witness :
    BluetoothEvent.properties_changed_to_events
        "/org/bluez/hci0/dev_11_22_33_44_55_66".toList
        ⟨ORG_BLUEZ_DEVICE1_NAME, [("RSSI", .i16 42)], []⟩
      = List.filterMap
          (specDeviceEventForKey ⟨"/org/bluez/hci0/dev_11_22_33_44_55_66".toList⟩
            [("RSSI", .i16 42)])
          deviceKeyOrder
    ∧ BluetoothEvent.properties_changed_to_events
          "/org/bluez/hci0/dev_11_22_33_44_55_66".toList
          ⟨ORG_BLUEZ_DEVICE1_NAME, [("RSSI", .i16 42)], []⟩
        = BluetoothEvent.properties_changed_to_events
            "/org/bluez/hci0/dev_11_22_33_44_55_66".toList
            ⟨ORG_BLUEZ_DEVICE1_NAME, [("RSSI", .i16 42)], []⟩ :=
  ⟨(c1_device_event_order "/org/bluez/hci0/dev_11_22_33_44_55_66".toList
      [("RSSI", .i16 42)] []).1,
    (c1_device_event_order "/org/bluez/hci0/dev_11_22_33_44_55_66".toList
      [("RSSI", .i16 42)] []).2.1 [("RSSI", .i16 42)] fun _ => rfl⟩

/-- C2 (amended): the decoder yields the empty event list for every message
that is neither a `PropertiesChanged` nor an `InterfacesAdded` signal, and
it never fails on any message that carries an object path header or is not
`PropertiesChanged`-shaped; a `PropertiesChanged`-shaped message without an
object path makes the decoder panic (the `unwrap`), modelled by `none`. -/
theorem c2_decoder_totality :
    (∀ msg : Message, propertiesChangedFromMessage msg = none →
        interfacesAddedFromMessage msg = none →
        BluetoothEvent.message_to_events msg = some [])
      ∧ (∀ msg : Message, msg.path.isSome → (BluetoothEvent.message_to_events msg).isSome)
      ∧ (∀ msg : Message, propertiesChangedFromMessage msg = none →
          (BluetoothEvent.message_to_events msg).isSome) := by
  refine ⟨?_, ?_, ?_⟩
  · intro msg h1 h2
    simp [BluetoothEvent.message_to_events, h1, h2]
  · intro msg hp
    simp only [BluetoothEvent.message_to_events]
    cases hc : propertiesChangedFromMessage msg with
    | some pc =>
      obtain ⟨P, hP⟩ := Option.isSome_iff_exists.1 hp
      simp [hP]
    | none => cases interfacesAddedFromMessage msg <;> simp
  · intro msg h1
    simp only [BluetoothEvent.message_to_events, h1]
    cases interfacesAddedFromMessage msg <;> simp

/-- C2 counterexample: a `PropertiesChanged`-shaped message with no object
path does not degrade to zero events — the decoder's
`message.path().unwrap()` panics, modelled by `none`. -/
theorem c2_counterexample :
    BluetoothEvent.message_to_events
        { msgType := .signal, path := none,
          interface := some "org.freedesktop.DBus.Properties",
          member := some "PropertiesChanged",
          body := .propsChanged ⟨ORG_BLUEZ_DEVICE1_NAME, [], []⟩ }
      = none := rfl

/-- Witness for C2 at a concrete non-signal message and at a concrete
`PropertiesChanged` message with a path. -/
theorem c2_decoder_totality_witness :
    BluetoothEvent.message_to_events
        { msgType := .methodCall, path := none, interface := none, member := none,
          body := .other }
      = some []
    ∧ (BluetoothEvent.message_to_events
        (adapter_powered_message "/org/bluez/hci0".toList true)).isSome :=
  ⟨c2_decoder_totality.1
      { msgType := .methodCall, path := none, interface := none, member := none,
        body := .other } rfl rfl,
    c2_decoder_totality.2.1 (adapter_powered_message "/org/bluez/hci0".toList true) rfl⟩

/-- C3: with the filter set built for a specific device identifier and
object-added interest disabled, the device-added message and the adapter
properties-changed message match no built filter, while the RSSI message
from the device itself and the value message from a characteristic below
the device each match a built filter — namespace matching, not
exact-path matching. -/
theorem c3_device_filter :
    ((BluetoothEvent.match_rules (some "/org/bluez/hci0/dev_11_22_33_44_55_66".toList)
          false).any
        fun r => r.matches
          (new_device_message "/org/bluez/hci0/dev_11_22_33_44_55_66".toList)) = false
      ∧ ((BluetoothEvent.match_rules (some "/org/bluez/hci0/dev_11_22_33_44_55_66".toList)
            false).any
          fun r => r.matches (adapter_powered_message "/org/bluez/hci0".toList true)) = false
      ∧ ((BluetoothEvent.match_rules (some "/org/bluez/hci0/dev_11_22_33_44_55_66".toList)
            false).any
          fun r => r.matches
            (device_rssi_message "/org/bluez/hci0/dev_11_22_33_44_55_66".toList 42)) = true
      ∧ ((BluetoothEvent.match_rules (some "/org/bluez/hci0/dev_11_22_33_44_55_66".toList)
            false).any
          fun r => r.matches
            (characteristic_value_message
              "/org/bluez/hci0/dev_11_22_33_44_55_66/service0012/char0034".toList
              [1, 2, 3])) = true :=
  ⟨rfl, rfl, rfl, rfl⟩

/-- C7: decoding an `InterfacesAdded` message yields exactly one Discovered
event carrying the added object's path if and only if the interface map
contains the device interface, regardless of that interface's property bag
(other interfaces contribute nothing). -/
theorem c7_interfaces_added (ia : ObjectManagerInterfacesAdded) :
    (BluetoothEvent.interfaces_added_to_events ia
        = if (List.lookup ORG_BLUEZ_DEVICE1_NAME ia.interfaces).isSome
            then [.device ⟨ia.object⟩ .discovered] else [])
      ∧ ((List.lookup ORG_BLUEZ_DEVICE1_NAME ia.interfaces).isSome
          ↔ BluetoothEvent.interfaces_added_to_events ia
              = [.device ⟨ia.object⟩ .discovered]) := by
  cases h : List.lookup ORG_BLUEZ_DEVICE1_NAME ia.interfaces with
  | some pm => exact ⟨by simp [BluetoothEvent.interfaces_added_to_events, h],
      by simp [BluetoothEvent.interfaces_added_to_events, h]⟩
  | none => exact ⟨by simp [BluetoothEvent.interfaces_added_to_events, h],
      by simp [BluetoothEvent.interfaces_added_to_events, h]⟩

end BluezAsync
